import Mathlib

/-!
Verification of the bounded command-dispatch core in
`calyx-py/calyx/queue_call.py`.

The Python file builds two hardware components:

* `raise_err_if_i_eq_MAX_CMDS` (the BoundsGuard): one 32-bit input `i`,
  one 1-bit ref register `err`; if `i = MAX_CMDS` it stores 1 into `err`,
  otherwise it leaves `err` alone.

* `main` (the Dispatcher): a while loop running while `err = 0`.  Each
  iteration latches `cmd := commands[i]` (2-bit register) and
  `value := values[i]` (32-bit register), invokes the external queue
  engine with `(cmd, value)` and the ref registers `ans`, `err`, then
  if `cmd <= 1` writes `ans` into `ans_mem[j]` and increments `j`,
  then increments `i` and invokes the BoundsGuard on the new `i`.

We embed this semantics shallowly: registers are `Nat` truncated by
`% 2^w` at the places the hardware truncates, the external queue engine
is an abstract transition function, memories are functions `Nat → Nat`,
and the run loop is fuel-indexed iteration.  A ghost field `outs`
records, in order, each (position, value) pair that the RECORD step
writes to the answer memory.
-/

/-- `MAX_CMDS = 15` from `queue_call.py`. -/
def MAX_CMDS : Nat := 15

/-- `ANS_MEM_LEN = 10` from `queue_call.py`. -/
def ANS_MEM_LEN : Nat := 10

/-- The component `raise_err_if_i_eq_MAX_CMDS` (BoundsGuard): if the
32-bit input `i` equals `MAX_CMDS`, store `true` into the 1-bit ref
register `err`; otherwise the control does nothing, so `err` keeps its
value. -/
def raise_err_if_i_eq_MAX_CMDS (i : Nat) (err : Bool) : Bool :=
  if i = MAX_CMDS then true else err

/-- The external queue engine: the `queue` component invoked by `main`.
`apply q cmd value ans err` returns the engine state together with the
values left in the ref registers `ans` and `err` after the invocation. -/
structure Engine (σ : Type) where
  apply : σ → Nat → Nat → Nat → Bool → σ × Nat × Bool

/-- The §6 contract clause "must not modify `err` to `false`": whenever
the engine is invoked with `err` already raised, it leaves it raised. -/
def ErrSticky {σ : Type} (E : Engine σ) : Prop :=
  ∀ (q : σ) (c v a : Nat), (E.apply q c v a true).2.2 = true

/-- The engine never raises `err` (no Push/Pop/Peek exceeds capacity):
invoked with `err` down, it returns `err` down. -/
def NeverFaults {σ : Type} (E : Engine σ) : Prop :=
  ∀ (q : σ) (c v a : Nat), (E.apply q c v a false).2.2 = false

/-- The state of the `main` component: the registers `i`, `j`, `command`,
`value`, `ans` (widths 32, 32, 2, 32, 32), the 1-bit register `err`, the
engine's private state `q`, the external memory `ans_mem` as a function
on addresses, and the ghost trace `outs` of (address, value) pairs
written to `ans_mem` by the RECORD step. -/
structure DState (σ : Type) where
  i : Nat
  j : Nat
  cmd : Nat
  value : Nat
  ans : Nat
  err : Bool
  q : σ
  mem : Nat → Nat
  outs : List (Nat × Nat)

/-- One pass through the loop body of `main` up to and including
`incr_i`, i.e. everything except the final BoundsGuard invocation:
latch `cmd := commands[i]` (2-bit register) and `value := values[i]`
(32-bit register), invoke the queue engine on the ref registers `ans`
and `err`, then — only when `cmd ≤ 1` — store `ans` to `ans_mem[j]` and
increment `j`, and finally increment `i`. -/
def dispatchPhase {σ : Type} (E : Engine σ) (cmds vals : Nat → Nat)
    (s : DState σ) : DState σ :=
  let c := cmds s.i % 4
  let r := E.apply s.q c (vals s.i % 2 ^ 32) s.ans s.err
  { i := (s.i + 1) % 2 ^ 32
    j := if c ≤ 1 then (s.j + 1) % 2 ^ 32 else s.j
    cmd := c
    value := vals s.i % 2 ^ 32
    ans := r.2.1 % 2 ^ 32
    err := r.2.2
    q := r.1
    mem := if c ≤ 1 then (fun k => if k = s.j then r.2.1 % 2 ^ 32 else s.mem k)
           else s.mem
    outs := if c ≤ 1 then s.outs ++ [(s.j, r.2.1 % 2 ^ 32)] else s.outs }

/-- The final step of the loop body: invoke `raise_err_if_i_eq_MAX_CMDS`
on the (already incremented) index `i` and the ref register `err`. -/
def guardPhase {σ : Type} (s : DState σ) : DState σ :=
  { s with err := raise_err_if_i_eq_MAX_CMDS s.i s.err }

/-- One full iteration of the while loop of `main`. -/
def step {σ : Type} (E : Engine σ) (cmds vals : Nat → Nat)
    (s : DState σ) : DState σ :=
  guardPhase (dispatchPhase E cmds vals s)

/-- The while loop of `main`, fuel-indexed: run while `err = 0`, at most
`fuel` more iterations. -/
def run {σ : Type} (E : Engine σ) (cmds vals : Nat → Nat) :
    Nat → DState σ → DState σ
  | 0, s => s
  | fuel + 1, s => if s.err then s else run E cmds vals fuel (step E cmds vals s)

/-- The initial state of a run: all registers of `main` start at zero
(`err` down), the answer memory is all zeros, and the engine starts in
the supplied state `q0`. -/
def initState {σ : Type} (q0 : σ) : DState σ :=
  { i := 0, j := 0, cmd := 0, value := 0, ans := 0, err := false,
    q := q0, mem := fun _ => 0, outs := [] }

/-- Modelled from the spec: the external FIFO queue engine of §6, which
is not part of the two source files (the `queue` component is supplied
to `insert_main` from outside).  Per the contract: Pop (`cmd = 0`)
removes and returns the front element via `ans`, raising `err` when
empty; Peek (`cmd = 1`) returns the front element without removing it,
raising `err` when empty; Push (`cmd = 2`) inserts `value`, raising
`err` when at capacity `cap`; `err` is never cleared. -/
def fifoEngine (cap : Nat) : Engine (List Nat) where
  apply q c v a e :=
    if c = 0 then
      match q with
      | [] => (q, a, true)
      | x :: rest => (rest, x, e)
    else if c = 1 then
      match q with
      | [] => (q, a, true)
      | x :: _ => (q, x, e)
    else
      if q.length < cap then (q ++ [v], a, e) else (q, a, true)

/-- The number of Pop/Peek opcodes among the `MAX_CMDS` tape entries
(as latched by the 2-bit `command` register). -/
def popPeekCount (cmds : Nat → Nat) : Nat :=
  ((List.range MAX_CMDS).filter (fun k => cmds k % 4 ≤ 1)).length

-- Helper lemmas --------------------------------------------------------

theorem fifoEngine_sticky (cap : Nat) : ErrSticky (fifoEngine cap) := by
  intro q c v a
  simp only [fifoEngine]
  split
  · cases q <;> simp
  · split
    · cases q <;> simp
    · split <;> simp

theorem run_of_err {σ : Type} (E : Engine σ) (cmds vals : Nat → Nat)
    (f : Nat) (s : DState σ) (h : s.err = true) :
    run E cmds vals f s = s := by
  cases f with
  | zero => rfl
  | succ f => simp [run, h]

/-- Peeling the last iteration off a fuel-indexed run. -/
theorem run_succ {σ : Type} (E : Engine σ) (cmds vals : Nat → Nat)
    (f : Nat) (s : DState σ) :
    run E cmds vals (f + 1) s =
      (if (run E cmds vals f s).err then run E cmds vals f s
       else step E cmds vals (run E cmds vals f s)) := by
  induction f generalizing s with
  | zero => simp [run]
  | succ f ih =>
      by_cases h : s.err = true
      · simp [run, h, run_of_err]
      · simp only [Bool.not_eq_true] at h
        show run E cmds vals (f + 1 + 1) s = _
        rw [show f + 1 + 1 = (f + 1) + 1 from rfl]
        simp only [run, h, Bool.false_eq_true, if_false]
        exact ih (step E cmds vals s)

/-- Extra fuel after the error flag has been raised changes nothing. -/
theorem run_add_of_err {σ : Type} (E : Engine σ) (cmds vals : Nat → Nat)
    (f n : Nat) (s : DState σ) (h : (run E cmds vals f s).err = true) :
    run E cmds vals (f + n) s = run E cmds vals f s := by
  induction n with
  | zero => rfl
  | succ n ih =>
      rw [show f + (n + 1) = (f + n) + 1 from rfl, run_succ, ih, if_pos]
      exact h

theorem run_outs_of_no_popPeek {σ : Type} (E : Engine σ) (cmds vals : Nat → Nat)
    (hc : ∀ k, 1 < cmds k % 4) (f : Nat) :
    ∀ s : DState σ, (run E cmds vals f s).outs = s.outs := by
  induction f with
  | zero => intro s; rfl
  | succ f ih =>
      intro s
      by_cases h : s.err = true
      · simp [run, h]
      · simp only [Bool.not_eq_true] at h
        simp only [run, h, Bool.false_eq_true, if_false]
        rw [ih]
        simp [step, guardPhase, dispatchPhase, not_le.mpr (hc s.i)]

-- Claim theorems -------------------------------------------------------

/-- C4: `raise_err_if_i_eq_MAX_CMDS` (BoundsGuard), for every 32-bit
index and every incoming `err`, sets `err` to true when the index equals
`MAX_CMDS` and leaves it exactly unchanged otherwise; in particular it
never writes `false` to `err`.  All three facts are captured by the
closed form `err || (index = MAX_CMDS)`. -/
theorem boundsGuard_check_spec (i : Nat) (err : Bool) (h : i < 2 ^ 32) :
    raise_err_if_i_eq_MAX_CMDS i err = (err || decide (i = MAX_CMDS)) := by
  by_cases hc : i = MAX_CMDS <;> simp [raise_err_if_i_eq_MAX_CMDS, hc]

theorem boundsGuard_check_spec_witness :
    (15 < 2 ^ 32 ∧
      raise_err_if_i_eq_MAX_CMDS 15 false = (false || decide (15 = MAX_CMDS))) ∧
    (3 < 2 ^ 32 ∧
      raise_err_if_i_eq_MAX_CMDS 3 true = (true || decide (3 = MAX_CMDS))) :=
  ⟨⟨by decide, boundsGuard_check_spec 15 false (by decide)⟩,
   ⟨by decide, boundsGuard_check_spec 3 true (by decide)⟩⟩

/-- C5: the shared `err` flag is sticky.  Under the §6 contract clause
that the engine never writes `false` to `err`, any state with `err`
raised keeps `err` raised through the dispatch phase and through a full
loop iteration (dispatch followed by the BoundsGuard): no step of the
Dispatcher or BoundsGuard ever writes `false` to `err`. -/
theorem err_flag_sticky {σ : Type} (E : Engine σ) (cmds vals : Nat → Nat)
    (s : DState σ) (hE : ErrSticky E) (h : s.err = true) :
    (dispatchPhase E cmds vals s).err = true ∧
    (step E cmds vals s).err = true := by
  have hd : (dispatchPhase E cmds vals s).err = true := by
    simp only [dispatchPhase, h]
    exact hE s.q (cmds s.i % 4) (vals s.i % 2 ^ 32) s.ans
  refine ⟨hd, ?_⟩
  simp only [step, guardPhase, raise_err_if_i_eq_MAX_CMDS]
  split
  · rfl
  · exact hd

theorem err_flag_sticky_witness :
    ErrSticky (fifoEngine 4) ∧
    (DState.err ⟨2, 1, 0, 0, 7, true, ([5] : List Nat), fun _ => 0, []⟩ = true) ∧
    ((dispatchPhase (fifoEngine 4) (fun _ => 0) (fun _ => 0)
        ⟨2, 1, 0, 0, 7, true, ([5] : List Nat), fun _ => 0, []⟩).err = true ∧
     (step (fifoEngine 4) (fun _ => 0) (fun _ => 0)
        ⟨2, 1, 0, 0, 7, true, ([5] : List Nat), fun _ => 0, []⟩).err = true) :=
  ⟨fifoEngine_sticky 4, rfl,
   err_flag_sticky (fifoEngine 4) (fun _ => 0) (fun _ => 0)
     ⟨2, 1, 0, 0, 7, true, ([5] : List Nat), fun _ => 0, []⟩
     (fifoEngine_sticky 4) rfl⟩

/-- C1: in every iteration whose latched 2-bit `cmd` is Pop (0) or
Peek (1), the RECORD step appends the engine-returned `ans` to the
answer memory at position `j` and increments `j`.  The statement makes
no assumption on the `err` value the engine returns, so the write is
never suppressed by a same-iteration engine fault. -/
theorem record_write_unconditional {σ : Type} (E : Engine σ)
    (cmds vals : Nat → Nat) (s : DState σ) (h : cmds s.i % 4 ≤ 1) :
    (step E cmds vals s).outs =
      s.outs ++ [(s.j,
        (E.apply s.q (cmds s.i % 4) (vals s.i % 2 ^ 32) s.ans s.err).2.1 % 2 ^ 32)] ∧
    (step E cmds vals s).j = (s.j + 1) % 2 ^ 32 ∧
    (step E cmds vals s).mem s.j =
      (E.apply s.q (cmds s.i % 4) (vals s.i % 2 ^ 32) s.ans s.err).2.1 % 2 ^ 32 := by
  refine ⟨?_, ?_, ?_⟩ <;> simp [step, guardPhase, dispatchPhase, h]

theorem record_write_unconditional_witness :
    ((fun _ : Nat => (0 : Nat)) (initState ([] : List Nat)).i % 4 ≤ 1) ∧
    ((step (fifoEngine 4) (fun _ => 0) (fun _ => 0) (initState ([] : List Nat))).outs
        = [(0, 0)] ∧
     (step (fifoEngine 4) (fun _ => 0) (fun _ => 0) (initState ([] : List Nat))).j = 1 ∧
     (step (fifoEngine 4) (fun _ => 0) (fun _ => 0) (initState ([] : List Nat))).err = true) := by
  refine ⟨by decide, ?_, ?_, by decide⟩
  · exact (record_write_unconditional (fifoEngine 4) (fun _ => 0) (fun _ => 0)
      (initState ([] : List Nat)) (by decide)).1.trans (by decide)
  · exact (record_write_unconditional (fifoEngine 4) (fun _ => 0) (fun _ => 0)
      (initState ([] : List Nat)) (by decide)).2.1.trans (by decide)

/-- C10: in every iteration whose latched 2-bit `cmd` is greater than 1
(Push = 2, or the undocumented value 3) the RECORD step is skipped: the
answer memory, the write trace and the cursor `j` are unchanged by the
iteration; hence a run over an all-Push tape leaves the write trace
empty at every fuel. -/
theorem push_skips_record {σ : Type} (E : Engine σ) (cmds vals : Nat → Nat)
    (q0 : σ) :
    (∀ s : DState σ, 1 < cmds s.i % 4 →
       (step E cmds vals s).outs = s.outs ∧
       (step E cmds vals s).j = s.j ∧
       (step E cmds vals s).mem = s.mem) ∧
    ((∀ k, 1 < cmds k % 4) →
       ∀ f, (run E cmds vals f (initState q0)).outs = []) := by
  constructor
  · intro s h
    refine ⟨?_, ?_, ?_⟩ <;> simp [step, guardPhase, dispatchPhase, not_le.mpr h]
  · intro hc f
    exact run_outs_of_no_popPeek E cmds vals hc f (initState q0)

theorem push_skips_record_witness :
    (1 < (fun _ : Nat => (2 : Nat)) (initState ([] : List Nat)).i % 4 ∧
      (step (fifoEngine 4) (fun _ => 2) (fun _ => 9) (initState ([] : List Nat))).outs
        = (initState ([] : List Nat)).outs ∧
      (step (fifoEngine 4) (fun _ => 2) (fun _ => 9) (initState ([] : List Nat))).j
        = (initState ([] : List Nat)).j) ∧
    (run (fifoEngine 4) (fun _ => 2) (fun _ => 9) 3 (initState ([] : List Nat))).outs = [] := by
  refine ⟨⟨by decide, ?_, ?_⟩, ?_⟩
  · exact ((push_skips_record (fifoEngine 4) (fun _ => 2) (fun _ => 9) ([] : List Nat)).1
      (initState ([] : List Nat)) (by decide)).1
  · exact ((push_skips_record (fifoEngine 4) (fun _ => 2) (fun _ => 9) ([] : List Nat)).1
      (initState ([] : List Nat)) (by decide)).2.1
  · exact (push_skips_record (fifoEngine 4) (fun _ => 2) (fun _ => 9) ([] : List Nat)).2
      (fun k => by decide) 3

/-- A trivial engine that ignores every command, echoes the operand into
`ans`, and never touches `err`; used as a concrete never-faulting engine
instance. -/
def nopEngine : Engine Unit where
  apply q _ v _ e := (q, v, e)

theorem nopEngine_never_faults : NeverFaults nopEngine :=
  fun _ _ _ _ => rfl

/-- From any state whose index is `f` short of `MAX_CMDS`, `f` more
fuel suffices to end the run with the error flag raised: the index grows
by one per iteration and the BoundsGuard fires at `MAX_CMDS`. -/
theorem run_reaches_err {σ : Type} (E : Engine σ) (cmds vals : Nat → Nat) :
    ∀ (f : Nat) (s : DState σ), 1 ≤ f → s.i + f = MAX_CMDS →
      (run E cmds vals f s).err = true := by
  intro f
  induction f with
  | zero => intro s h _; exact absurd h (by decide)
  | succ f ih =>
      intro s _ hif
      have hm : MAX_CMDS = 15 := rfl
      rw [hm] at hif
      by_cases he : s.err = true
      · rw [run_of_err E cmds vals _ s he]; exact he
      · simp only [Bool.not_eq_true] at he
        simp only [run, he, Bool.false_eq_true, if_false]
        rcases Nat.eq_zero_or_pos f with h0 | hpos
        · subst h0
          have hi : s.i = 14 := by omega
          show (step E cmds vals s).err = true
          simp [step, guardPhase, dispatchPhase, raise_err_if_i_eq_MAX_CMDS,
            MAX_CMDS, hi]
        · have hi1 : s.i + 1 < 2 ^ 32 := by
            have h15 : s.i + 1 ≤ 15 := by omega
            exact lt_of_le_of_lt h15 (by norm_num)
          have hstep : (step E cmds vals s).i = s.i + 1 := Nat.mod_eq_of_lt hi1
          exact ih (step E cmds vals s) hpos (by rw [hstep, hm]; omega)

/-- Invariant of a run with a never-faulting engine: after `k ≤ MAX_CMDS`
iterations the index is `k`, the error flag is raised exactly when
`k = MAX_CMDS`, and the write trace has one entry per Pop/Peek opcode
among the first `k` tape entries. -/
theorem run_no_fault_inv {σ : Type} (E : Engine σ) (cmds vals : Nat → Nat)
    (q0 : σ) (hE : NeverFaults E) :
    ∀ k : Nat, k ≤ MAX_CMDS →
      (run E cmds vals k (initState q0)).i = k ∧
      (run E cmds vals k (initState q0)).err = decide (k = MAX_CMDS) ∧
      (run E cmds vals k (initState q0)).outs.length =
        ((List.range k).filter (fun m => cmds m % 4 ≤ 1)).length := by
  intro k
  induction k with
  | zero => intro _; exact ⟨rfl, rfl, rfl⟩
  | succ k ih =>
      intro hk1
      have hklt : k < MAX_CMDS := hk1
      obtain ⟨hi, herr, houts⟩ := ih (le_of_lt hklt)
      have herr' : (run E cmds vals k (initState q0)).err = false := by
        rw [herr]; simp [Nat.ne_of_lt hklt]
      rw [run_succ, herr']
      simp only [Bool.false_eq_true, if_false]
      set t := run E cmds vals k (initState q0) with ht
      have hi1 : k + 1 < 2 ^ 32 := by
        have hle : k + 1 ≤ 15 := hk1
        exact lt_of_le_of_lt hle (by norm_num)
      refine ⟨?_, ?_, ?_⟩
      · show (t.i + 1) % 2 ^ 32 = k + 1
        rw [hi]; exact Nat.mod_eq_of_lt hi1
      · show raise_err_if_i_eq_MAX_CMDS ((t.i + 1) % 2 ^ 32)
          (E.apply t.q (cmds t.i % 4) (vals t.i % 2 ^ 32) t.ans t.err).2.2
          = decide (k + 1 = MAX_CMDS)
        rw [hi, Nat.mod_eq_of_lt hi1, herr', hE]
        by_cases hx : k + 1 = MAX_CMDS <;>
          simp [raise_err_if_i_eq_MAX_CMDS, hx]
      · show (if cmds t.i % 4 ≤ 1 then t.outs ++ [(t.j, _)] else t.outs).length = _
        rw [hi, List.range_succ, List.filter_append, List.length_append]
        by_cases hc : cmds k % 4 ≤ 1 <;> simp [hc, houts]

/-- C6: for every pair of input tapes and every engine satisfying the
§6 contract, the run loop terminates: the index register grows by
exactly one (mod 2^32) per iteration, after `MAX_CMDS` units of fuel the
error flag is raised (the BoundsGuard fires at `i = MAX_CMDS`), and any
extra fuel leaves the run unchanged — the loop executes at most
`MAX_CMDS = 15` iterations. -/
theorem dispatcher_run_bounded {σ : Type} (E : Engine σ)
    (cmds vals : Nat → Nat) (q0 : σ) (hE : ErrSticky E) :
    (∀ s : DState σ, (step E cmds vals s).i = (s.i + 1) % 2 ^ 32) ∧
    (run E cmds vals MAX_CMDS (initState q0)).err = true ∧
    (∀ n : Nat, run E cmds vals (MAX_CMDS + n) (initState q0) =
                run E cmds vals MAX_CMDS (initState q0)) := by
  have herr : (run E cmds vals MAX_CMDS (initState q0)).err = true :=
    run_reaches_err E cmds vals MAX_CMDS (initState q0) (by decide) rfl
  exact ⟨fun s => rfl, herr,
    fun n => run_add_of_err E cmds vals MAX_CMDS n (initState q0) herr⟩

theorem dispatcher_run_bounded_witness :
    ErrSticky (fifoEngine 4) ∧
    ((step (fifoEngine 4) (fun _ => 2) (fun _ => 1) (initState ([] : List Nat))).i
        = ((initState ([] : List Nat)).i + 1) % 2 ^ 32 ∧
     (run (fifoEngine 4) (fun _ => 2) (fun _ => 1) MAX_CMDS
        (initState ([] : List Nat))).err = true ∧
     run (fifoEngine 4) (fun _ => 2) (fun _ => 1) (MAX_CMDS + 2)
        (initState ([] : List Nat))
       = run (fifoEngine 4) (fun _ => 2) (fun _ => 1) MAX_CMDS
        (initState ([] : List Nat))) :=
  ⟨fifoEngine_sticky 4,
   (dispatcher_run_bounded (fifoEngine 4) (fun _ => 2) (fun _ => 1)
      ([] : List Nat) (fifoEngine_sticky 4)).1 (initState ([] : List Nat)),
   (dispatcher_run_bounded (fifoEngine 4) (fun _ => 2) (fun _ => 1)
      ([] : List Nat) (fifoEngine_sticky 4)).2.1,
   (dispatcher_run_bounded (fifoEngine 4) (fun _ => 2) (fun _ => 1)
      ([] : List Nat) (fifoEngine_sticky 4)).2.2 2⟩

/-- C3: with a never-faulting engine, the run processes all `MAX_CMDS`
tape entries — after each `k < MAX_CMDS` iterations the index is `k`
and the error flag is still down — and the run then stops with
`err = true` and `i = MAX_CMDS`.  The flag is raised by the BoundsGuard
and not by an engine fault: the dispatch phase of the final iteration
(which consumes the last instruction, at index `MAX_CMDS - 1`) leaves
`err` down, and the BoundsGuard invocation that follows it inside the
same loop body raises it. -/
theorem ceiling_fires_after_last_instruction {σ : Type} (E : Engine σ)
    (cmds vals : Nat → Nat) (q0 : σ) (hE : NeverFaults E) :
    (∀ k, k < MAX_CMDS →
       (run E cmds vals k (initState q0)).i = k ∧
       (run E cmds vals k (initState q0)).err = false) ∧
    (run E cmds vals MAX_CMDS (initState q0)).i = MAX_CMDS ∧
    (run E cmds vals MAX_CMDS (initState q0)).err = true ∧
    (dispatchPhase E cmds vals
       (run E cmds vals (MAX_CMDS - 1) (initState q0))).err = false ∧
    (guardPhase (dispatchPhase E cmds vals
       (run E cmds vals (MAX_CMDS - 1) (initState q0)))).err = true := by
  have hinv := run_no_fault_inv E cmds vals q0 hE
  have h14 := hinv (MAX_CMDS - 1) (by decide)
  have h14err : (run E cmds vals (MAX_CMDS - 1) (initState q0)).err = false := by
    rw [h14.2.1]; decide
  have hdisp : (dispatchPhase E cmds vals
      (run E cmds vals (MAX_CMDS - 1) (initState q0))).err = false := by
    simp only [dispatchPhase]
    rw [h14err, hE]
  refine ⟨?_, ?_, ?_, hdisp, ?_⟩
  · intro k hk
    obtain ⟨hi, herr, _⟩ := hinv k (le_of_lt hk)
    exact ⟨hi, by rw [herr]; simp [Nat.ne_of_lt hk]⟩
  · exact (hinv MAX_CMDS le_rfl).1
  · rw [(hinv MAX_CMDS le_rfl).2.1]; decide
  · simp only [guardPhase, raise_err_if_i_eq_MAX_CMDS]
    have hi14 : (run E cmds vals (MAX_CMDS - 1) (initState q0)).i = 14 :=
      h14.1
    have : (dispatchPhase E cmds vals
        (run E cmds vals (MAX_CMDS - 1) (initState q0))).i = MAX_CMDS := by
      show ((run E cmds vals (MAX_CMDS - 1) (initState q0)).i + 1) % 2 ^ 32
        = MAX_CMDS
      rw [hi14]; decide
    rw [this, if_pos rfl]

theorem ceiling_fires_after_last_instruction_witness :
    NeverFaults nopEngine ∧
    ((run nopEngine (fun _ => 2) (fun _ => 1) 3 (initState ())).i = 3 ∧
     (run nopEngine (fun _ => 2) (fun _ => 1) 3 (initState ())).err = false) ∧
    (run nopEngine (fun _ => 2) (fun _ => 1) MAX_CMDS (initState ())).i = MAX_CMDS ∧
    (run nopEngine (fun _ => 2) (fun _ => 1) MAX_CMDS (initState ())).err = true ∧
    (dispatchPhase nopEngine (fun _ => 2) (fun _ => 1)
       (run nopEngine (fun _ => 2) (fun _ => 1) (MAX_CMDS - 1) (initState ()))).err = false ∧
    (guardPhase (dispatchPhase nopEngine (fun _ => 2) (fun _ => 1)
       (run nopEngine (fun _ => 2) (fun _ => 1) (MAX_CMDS - 1) (initState ())))).err = true :=
  ⟨nopEngine_never_faults,
   (ceiling_fires_after_last_instruction nopEngine (fun _ => 2) (fun _ => 1) ()
      nopEngine_never_faults).1 3 (by decide),
   (ceiling_fires_after_last_instruction nopEngine (fun _ => 2) (fun _ => 1) ()
      nopEngine_never_faults).2.1,
   (ceiling_fires_after_last_instruction nopEngine (fun _ => 2) (fun _ => 1) ()
      nopEngine_never_faults).2.2.1,
   (ceiling_fires_after_last_instruction nopEngine (fun _ => 2) (fun _ => 1) ()
      nopEngine_never_faults).2.2.2.1,
   (ceiling_fires_after_last_instruction nopEngine (fun _ => 2) (fun _ => 1) ()
      nopEngine_never_faults).2.2.2.2⟩

/-- An all-Push instruction tape. -/
def allPushTape : Nat → Nat := fun _ => 2

/-- C2 (counterexample): an all-Push tape with an engine that never
raises `err` is an instance of the claim's hypotheses (length at most
`MAX_CMDS`, no engine fault: the flag is still down after 14
iterations), yet the run does not terminate with `err = false`: the only
way the while loop stops is `err = true`, raised here by the BoundsGuard
at `i = MAX_CMDS`.  The result-count part of the claim does hold. -/
theorem full_tape_run_err_counterexample :
    (run nopEngine allPushTape (fun _ => 0) (MAX_CMDS - 1) (initState ())).err
      = false ∧
    (run nopEngine allPushTape (fun _ => 0) MAX_CMDS (initState ())).err = true ∧
    (run nopEngine allPushTape (fun _ => 0) MAX_CMDS (initState ())).outs.length
      = popPeekCount allPushTape := by
  decide

/-- C2 (amended): for every instruction tape (the Dispatcher always
consumes all `MAX_CMDS = 15` entries) and every engine that never raises
`err`, the run terminates with `err = true` — raised by the instruction
ceiling, the only possible source — and the number of entries written to
the ResultTape equals the number of Pop/Peek opcodes in the tape. -/
theorem full_tape_run_result_count {σ : Type} (E : Engine σ)
    (cmds vals : Nat → Nat) (q0 : σ) (hE : NeverFaults E) :
    (run E cmds vals MAX_CMDS (initState q0)).err = true ∧
    (run E cmds vals MAX_CMDS (initState q0)).outs.length = popPeekCount cmds := by
  obtain ⟨_, herr, houts⟩ := run_no_fault_inv E cmds vals q0 hE MAX_CMDS le_rfl
  exact ⟨by rw [herr]; decide, houts⟩

theorem full_tape_run_result_count_witness :
    NeverFaults nopEngine ∧
    ((run nopEngine (fun k => if k < 2 then 0 else 2) (fun _ => 0) MAX_CMDS
        (initState ())).err = true ∧
     (run nopEngine (fun k => if k < 2 then 0 else 2) (fun _ => 0) MAX_CMDS
        (initState ())).outs.length
       = popPeekCount (fun k => if k < 2 then 0 else 2)) :=
  ⟨nopEngine_never_faults,
   full_tape_run_result_count nopEngine (fun k => if k < 2 then 0 else 2)
     (fun _ => 0) () nopEngine_never_faults⟩

/-- One Push followed by Peeks: 14 Pop/Peek opcodes in 15 entries. -/
def overflowCmds : Nat → Nat := fun k => if k = 0 then 2 else 1

/-- Operand tape for the overflow scenario: push the value 5. -/
def overflowVals : Nat → Nat := fun k => if k = 0 then 5 else 0

/-- C7: the bound `j ≤ ANS_MEM_LEN` is not enforced.  Pushing one value
and then peeking 14 times (no engine fault: the queue is never empty
after the push and never over capacity) drives the result cursor `j` to
14 > `ANS_MEM_LEN` = 10; the RECORD step writes to position
`ANS_MEM_LEN` of the answer memory (both in the write trace and in the
memory itself) with no capacity check: the error flag is still down
after 14 iterations and is only raised by the instruction ceiling. -/
theorem result_tape_overflow_unchecked :
    ANS_MEM_LEN <
      (run (fifoEngine 10) overflowCmds overflowVals MAX_CMDS (initState [])).j ∧
    (ANS_MEM_LEN, 5) ∈
      (run (fifoEngine 10) overflowCmds overflowVals MAX_CMDS (initState [])).outs ∧
    (run (fifoEngine 10) overflowCmds overflowVals MAX_CMDS
       (initState [])).mem ANS_MEM_LEN = 5 ∧
    (run (fifoEngine 10) overflowCmds overflowVals (MAX_CMDS - 1)
       (initState [])).err = false ∧
    (run (fifoEngine 10) overflowCmds overflowVals MAX_CMDS
       (initState [])).err = true := by
  decide

/-- The §8 example scenario instruction tape `[Push, Push, Pop, Peek]`,
padded with Push to the fixed tape length. -/
def exampleCmds : Nat → Nat := fun k => [2, 2, 0, 1].getD k 2

/-- The §8 example scenario operand tape `[5, 9, _, _]`. -/
def exampleVals : Nat → Nat := fun k => [5, 9, 0, 0].getD k 0

/-- C9 (counterexample): on `instructions = [Push, Push, Pop, Peek]`,
`operands = [5, 9, _, _]` with a FIFO engine, the answers recorded after
the four instructions are `[5, 9]` — Pop removes the front element 5,
so the Peek that follows sees 9 — not `[5, 5]`; and the run does not
terminate with `err = false` and `i = 4`: the loop keeps consuming the
tape and stops at the instruction ceiling with `err = true`, `i = 15`. -/
theorem example_scenario_counterexample :
    (run (fifoEngine 100) exampleCmds exampleVals 4 (initState [])).outs.map
        Prod.snd ≠ [5, 5] ∧
    (run (fifoEngine 100) exampleCmds exampleVals MAX_CMDS (initState [])).err
        = true ∧
    (run (fifoEngine 100) exampleCmds exampleVals MAX_CMDS (initState [])).i
        = MAX_CMDS := by
  decide

/-- C9 (amended): on `instructions = [Push, Push, Pop, Peek]`,
`operands = [5, 9, _, _]` with a FIFO engine, after the four
instructions (four loop iterations) the ResultTape holds `[5, 9]`
(written at positions 0 and 1), `err` is still false and the
instruction cursor is `i = 4`. -/
theorem example_scenario_after_four_iterations :
    (run (fifoEngine 100) exampleCmds exampleVals 4 (initState [])).outs
        = [(0, 5), (1, 9)] ∧
    (run (fifoEngine 100) exampleCmds exampleVals 4 (initState [])).err = false ∧
    (run (fifoEngine 100) exampleCmds exampleVals 4 (initState [])).i = 4 ∧
    (run (fifoEngine 100) exampleCmds exampleVals 4 (initState [])).j = 2 := by
  decide

/-- Round-trip tape: three Pushes, three Pops, Push padding. -/
def rtCmds : Nat → Nat := fun k => if k < 3 then 2 else if k < 6 then 0 else 2

/-- Round-trip operands: push `v1, v2, v3`. -/
def rtVals (v1 v2 v3 : Nat) : Nat → Nat :=
  fun k => if k = 0 then v1 else if k = 1 then v2 else if k = 2 then v3 else 0

/-- Peek-then-Pop tape: Push, Peek, Pop, Push padding. -/
def pkCmds : Nat → Nat :=
  fun k => if k = 0 then 2 else if k = 1 then 1 else if k = 2 then 0 else 2

/-- Peek-then-Pop operands: push `v`. -/
def pkVals (v : Nat) : Nat → Nat := fun k => if k = 0 then v else 0

/-- C8: round-trip with a FIFO engine.  For all 32-bit `v1, v2, v3`, a
tape beginning Push `v1`, Push `v2`, Push `v3`, Pop, Pop, Pop (padded
with Pushes) yields a ResultTape whose entries are exactly
`[v1, v2, v3]`; and for every 32-bit `v`, a tape beginning Push `v`,
Peek, Pop yields a ResultTape whose entries are exactly `[v, v]`. -/
theorem fifo_roundtrip (v1 v2 v3 v : Nat) (h1 : v1 < 2 ^ 32)
    (h2 : v2 < 2 ^ 32) (h3 : v3 < 2 ^ 32) (hv : v < 2 ^ 32) :
    (run (fifoEngine 100) rtCmds (rtVals v1 v2 v3) MAX_CMDS
       (initState [])).outs.map Prod.snd = [v1, v2, v3] ∧
    (run (fifoEngine 100) pkCmds (pkVals v) MAX_CMDS
       (initState [])).outs.map Prod.snd = [v, v] := by
  norm_num at h1 h2 h3 hv
  constructor
  · simp [run, step, guardPhase, dispatchPhase, fifoEngine,
      raise_err_if_i_eq_MAX_CMDS, rtCmds, rtVals, initState, MAX_CMDS,
      Nat.mod_eq_of_lt, h1, h2, h3]
  · simp [run, step, guardPhase, dispatchPhase, fifoEngine,
      raise_err_if_i_eq_MAX_CMDS, pkCmds, pkVals, initState, MAX_CMDS,
      Nat.mod_eq_of_lt, hv]

theorem fifo_roundtrip_witness :
    ((11 : Nat) < 2 ^ 32 ∧ (22 : Nat) < 2 ^ 32 ∧ (33 : Nat) < 2 ^ 32 ∧
      (7 : Nat) < 2 ^ 32) ∧
    ((run (fifoEngine 100) rtCmds (rtVals 11 22 33) MAX_CMDS
        (initState [])).outs.map Prod.snd = [11, 22, 33] ∧
     (run (fifoEngine 100) pkCmds (pkVals 7) MAX_CMDS
        (initState [])).outs.map Prod.snd = [7, 7]) :=
  ⟨⟨by decide, by decide, by decide, by decide⟩,
   fifo_roundtrip 11 22 33 7 (by decide) (by decide) (by decide) (by decide)⟩
